import Mathlib

/-!
Verification of the step-orchestration and reporting core of the topgrade
upgrade orchestrator (src/src/main.rs), shallowly embedded in Lean 4.

The repository sources given to us contain only `main.rs`; the modules
`report.rs` and `git.rs` (declared by `mod report;` and `mod git;`) are not
present, so `Report` and `Repositories` are modelled from the specification.
The concrete upgrade actions (`linux::upgrade`, `unix::run_homebrew`,
`git.pull`, ...) are external collaborators returning
`Option<(&str, bool)>`; they appear as fields of an environment record.
The embedding follows the Linux build of `run` (the `cfg(target_os =
"linux")` and `cfg(unix)` blocks are active, the `cfg(windows)` and
`cfg(target_os = "macos")` blocks are not).
-/

namespace Topgrade

/-- Modelled from the spec: `report.rs` is not under the provided sources.
Spec 3/4.2: a Report is an ordered, append-only sequence of
(name, succeeded) records. -/
structure Report where
  data : List (String × Bool)
deriving Repr, DecidableEq

/-- Modelled from the spec: `Report::new()` creates an empty report. -/
def Report.new : Report := ⟨[]⟩

/-- Modelled from the spec: `push_result(None)` is a no-op,
`push_result(Some((name, succeeded)))` appends unconditionally. -/
def Report.push_result (r : Report) (result : Option (String × Bool)) : Report :=
  match result with
  | none => r
  | some entry => ⟨r.data ++ [entry]⟩

/-- Modelled from the spec: `all_succeeded()` is true iff every recorded
entry has `succeeded == true` (vacuously true when empty).  `main.rs`
line 202 inlines the same reduction over `report.data()`. -/
def Report.all_succeeded (r : Report) : Bool :=
  r.data.all (fun p => p.2)

/-- Modelled from the spec: `git.rs` is not under the provided sources.
Spec 4.1: a RepositorySet stores canonical git repository roots,
deduplicated.  The filesystem resolution (existence check, walk to the
repository root, symlink/relative-path canonicalization) is the
`resolve` parameter: it sends a raw candidate path to its canonical
repository root, or to `none` when the path is not inside a git
working tree. -/
structure Repositories where
  repos : List String
deriving Repr, DecidableEq

/-- Modelled from the spec: `Repositories::new` starts empty. -/
def Repositories.new : Repositories := ⟨[]⟩

/-- Modelled from the spec: `insert` resolves the candidate to a canonical
root; unresolvable candidates are silently dropped, and a root already
stored is not stored again. -/
def Repositories.insert (resolve : String → Option String)
    (rs : Repositories) (path : String) : Repositories :=
  match resolve path with
  | none => rs
  | some root => if root ∈ rs.repos then rs else ⟨rs.repos ++ [root]⟩

/-- Modelled from the spec: `repositories()` yields the stored roots. -/
def Repositories.repositories (rs : Repositories) : List String :=
  rs.repos

/-- The two calls `run` makes on the terminal at lines 195 and 198 of
`main.rs`: `print_separator("Summary")` and `print_result(key, succeeded)`.
Prints made inside the opaque step actions belong to those collaborators
and are not part of this trace. -/
inductive TermEvent where
  | separator (label : String)
  | result (name : String) (succeeded : Bool)
deriving Repr, DecidableEq

/-- The already-parsed configuration (`config.rs` is an excluded external
collaborator): the three accessors `run` consumes. -/
structure Config where
  pre_commands : Option (List (String × String))
  commands : Option (List (String × String))
  git_repos : Option (List String)

/-- `directories::BaseDirs`: only `home_dir()` is consumed by `run`. -/
structure BaseDirs where
  home_dir : String

/-- The errors `run` can return: the `StepFailed` marker (line 48 of
`main.rs`) and every other `failure::Error` (base-directory lookup,
configuration read, pre-run command failure), carried as its display
message. -/
inductive Err where
  | stepFailed
  | fatal (msg : String)
deriving Repr, DecidableEq

/-- The environment `run` executes in: base directories, configuration,
the outcome of each opaque external action, and the filesystem view used
by repository resolution.  Every built-in step returns
`Option (String × Bool)` exactly as in the source (`None` = skipped);
`run_custom_command` returns `Result<(), Error>`. -/
structure Env where
  base_dirs : Option BaseDirs
  config : Except String Config
  run_custom_command : String → String → Except String Unit
  resolve_repo : String → Option String
  pull : String → Option (String × Bool)
  upgrade_linux : Option (String × Bool)
  run_homebrew : Option (String × Bool)
  run_zplug : Option (String × Bool)
  run_fisherman : Option (String × Bool)
  run_tpm : Option (String × Bool)
  run_rustup : Option (String × Bool)
  run_cargo_update : Option (String × Bool)
  run_emacs : Option (String × Bool)
  upgrade_vim : Option (String × Bool)
  upgrade_neovim : Option (String × Bool)
  run_npm_upgrade : Option (String × Bool)
  yarn_global_update : Option (String × Bool)
  run_apm : Option (String × Bool)
  run_flatpak : Option (String × Bool)
  run_snap : Option (String × Bool)
  run_fwupdmgr : Option (String × Bool)
  run_needrestart : Option (String × Bool)

/-- Lines 89-93 of `main.rs`: run the pre-run custom commands in order;
the `?` operator propagates the first failure as a fatal error. -/
def runPreCommands (env : Env) : List (String × String) → Except String Unit
  | [] => Except.ok ()
  | (name, command) :: rest =>
    match env.run_custom_command name command with
    | Except.ok _ => runPreCommands env rest
    | Except.error e => Except.error e

/-- Lines 114-137 of `main.rs`: the candidate paths offered to
`git_repos.insert`, in source order (the three cross-platform dotfile
locations, the four unix-only ones, then the configured extra repos). -/
def repoCandidates (bd : BaseDirs) (cfg : Config) : List String :=
  [bd.home_dir ++ "/.emacs.d",
   bd.home_dir ++ "/.vim",
   bd.home_dir ++ "/.config/nvim",
   bd.home_dir ++ "/.zshrc",
   bd.home_dir ++ "/.oh-my-zsh",
   bd.home_dir ++ "/.tmux",
   bd.home_dir ++ "/.config/fish"] ++ cfg.git_repos.getD []

/-- The repository set built by `run` before the pull loop. -/
def builtRepos (env : Env) (bd : BaseDirs) (cfg : Config) : Repositories :=
  (repoCandidates bd cfg).foldl (Repositories.insert env.resolve_repo) Repositories.new

/-- Lines 101-163 of `main.rs` (Linux build): the step outcomes pushed
into the report before the main custom commands, in source order.  The
distro system upgrade is gated on the absence of `--no-system`. -/
def stepsBefore (env : Env) (no_system : Bool) (bd : BaseDirs) (cfg : Config) :
    List (Option (String × Bool)) :=
  (if no_system then [] else [env.upgrade_linux]) ++
  [env.run_homebrew] ++
  (builtRepos env bd cfg).repositories.map env.pull ++
  [env.run_zplug, env.run_fisherman, env.run_tpm,
   env.run_rustup, env.run_cargo_update, env.run_emacs,
   env.upgrade_vim, env.upgrade_neovim, env.run_npm_upgrade,
   env.yarn_global_update, env.run_apm,
   env.run_flatpak, env.run_snap]

/-- Lines 165-172 of `main.rs`: each configured main custom command is
pushed as `Some((name, run_custom_command(..).is_ok()))`. -/
def customSteps (env : Env) (cfg : Config) : List (Option (String × Bool)) :=
  (cfg.commands.getD []).map
    (fun nc => some (nc.1, (env.run_custom_command nc.1 nc.2).toBool))

/-- Lines 174-178 of `main.rs`: the two steps after the custom commands. -/
def stepsAfter (env : Env) : List (Option (String × Bool)) :=
  [env.run_fwupdmgr, env.run_needrestart]

/-- The full main step sequence of the Linux build of `run`, in the order
the source pushes results. -/
def mainSteps (env : Env) (no_system : Bool) (bd : BaseDirs) (cfg : Config) :
    List (Option (String × Bool)) :=
  stepsBefore env no_system bd cfg ++ customSteps env cfg ++ stepsAfter env

/-- Lines 194-200 of `main.rs`: the summary is printed only when the
report holds at least one record; one separator, then one result line
per record in recorded order. -/
def summaryEvents (r : Report) : List TermEvent :=
  if r.data.isEmpty then []
  else TermEvent.separator "Summary" :: r.data.map (fun p => TermEvent.result p.1 p.2)

/-- The observable state `run` leaves behind: the report and the
terminal calls it made itself. -/
structure RunState where
  report : Report
  events : List TermEvent
deriving Repr, DecidableEq

/-- `run()` (lines 54-207 of `main.rs`, Linux build): resolve base
directories, read the configuration, run the pre-run commands (each a
fatal abort point), fold every step outcome into the report, print the
summary when non-empty, and reduce the report to `Ok` or `StepFailed`. -/
def run (env : Env) (no_system : Bool) : RunState × Except Err Unit :=
  match env.base_dirs with
  | none => (⟨Report.new, []⟩, Except.error (Err.fatal "Cannot find the user base directories"))
  | some bd =>
    match env.config with
    | Except.error e => (⟨Report.new, []⟩, Except.error (Err.fatal e))
    | Except.ok cfg =>
      match runPreCommands env (cfg.pre_commands.getD []) with
      | Except.error e => (⟨Report.new, []⟩, Except.error (Err.fatal e))
      | Except.ok _ =>
        let report := (mainSteps env no_system bd cfg).foldl Report.push_result Report.new
        (⟨report, summaryEvents report⟩,
         if report.data.all (fun p => p.2) then Except.ok ()
         else Except.error Err.stepFailed)

/-- `main()` (lines 209-221 of `main.rs`): the process exit code and the
`ERROR: ...` lines printed, as decided by `run`'s result; the
`StepFailed` downcast arm prints nothing. -/
def mainFn (env : Env) (no_system : Bool) : Nat × List String :=
  match (run env no_system).2 with
  | Except.ok _ => (0, [])
  | Except.error Err.stepFailed => (1, [])
  | Except.error (Err.fatal msg) => (1, ["ERROR: " ++ msg])

/-- Follows the claim's words (C10): what `main` is claimed to print — the
single `ERROR: <message>` line exactly when `run` returned a fatal error
that is not the `StepFailed` signal, and nothing otherwise. -/
def specFatalPrints : Except Err Unit → List String
  | Except.error (Err.fatal msg) => ["ERROR: " ++ msg]
  | _ => []

/-! Sample environments used by the witness theorems. -/

/-- A quiet environment: every step skipped, no configuration entries. -/
def env0 : Env :=
  { base_dirs := some ⟨"/home/u"⟩
    config := Except.ok ⟨none, none, none⟩
    run_custom_command := fun _ _ => Except.ok ()
    resolve_repo := fun _ => none
    pull := fun _ => none
    upgrade_linux := none
    run_homebrew := none
    run_zplug := none
    run_fisherman := none
    run_tpm := none
    run_rustup := none
    run_cargo_update := none
    run_emacs := none
    upgrade_vim := none
    upgrade_neovim := none
    run_npm_upgrade := none
    yarn_global_update := none
    run_apm := none
    run_flatpak := none
    run_snap := none
    run_fwupdmgr := none
    run_needrestart := none }

/-- A configuration with one failing main custom command and one extra
git repository. -/
def cfg1 : Config :=
  ⟨none, some [("mycmd", "false")], some ["/home/u/code/proj"]⟩

/-- An environment exercising a system upgrade, a failing homebrew step,
one pulled repository and one failing custom command. -/
def env1 : Env :=
  { env0 with
    config := Except.ok cfg1
    run_custom_command := fun _ c =>
      if c = "false" then Except.error "exit 1" else Except.ok ()
    resolve_repo := fun p =>
      if p = "/home/u/code/proj" then some "/home/u/code/proj" else none
    pull := fun r => some (r, true)
    upgrade_linux := some ("System upgrade", true)
    run_homebrew := some ("Brew", false) }

/-- An environment whose single pre-run command fails. -/
def envPre : Env :=
  { env0 with
    config := Except.ok ⟨some [("boom", "exit 1")], none, none⟩
    run_custom_command := fun _ _ => Except.error "command failed" }

/-! Helper lemmas shared by the claim theorems. -/

/-- Folding `push_result` over a list of outcomes appends exactly the
non-skipped ones, in order. -/
theorem foldl_push_result_data (l : List (Option (String × Bool))) (r : Report) :
    (l.foldl Report.push_result r).data = r.data ++ l.filterMap id := by
  induction l generalizing r with
  | nil => simp
  | cons a l ih =>
    cases a with
    | none => simp [List.foldl_cons, Report.push_result, ih]
    | some e => simp [List.foldl_cons, Report.push_result, ih]

/-- When base directories, configuration and the pre-run commands all
succeed, `run` is the report fold, the summary of it, and the final
all-succeeded reduction. -/
theorem run_shape_ok (env : Env) (ns : Bool) (bd : BaseDirs) (cfg : Config)
    (hbd : env.base_dirs = some bd) (hcfg : env.config = Except.ok cfg)
    (hpre : runPreCommands env (cfg.pre_commands.getD []) = Except.ok ()) :
    run env ns =
      (⟨⟨(mainSteps env ns bd cfg).filterMap id⟩,
        summaryEvents ⟨(mainSteps env ns bd cfg).filterMap id⟩⟩,
       if ((mainSteps env ns bd cfg).filterMap id).all (fun p => p.2)
       then Except.ok () else Except.error Err.stepFailed) := by
  have hdata : ((mainSteps env ns bd cfg).foldl Report.push_result Report.new).data
      = (mainSteps env ns bd cfg).filterMap id := by
    simpa [Report.new] using foldl_push_result_data (mainSteps env ns bd cfg) Report.new
  have hrep : (mainSteps env ns bd cfg).foldl Report.push_result Report.new
      = Report.mk ((mainSteps env ns bd cfg).filterMap id) := by
    rw [← hdata]
  simp [run, hbd, hcfg, hpre, hrep]

/-- If `run` reached the final reduction (`Ok` or the `StepFailed`
signal), then base directories, configuration and pre-run commands all
succeeded. -/
theorem reaches_pre_ok (env : Env) (ns : Bool)
    (h : (run env ns).2 = Except.ok () ∨ (run env ns).2 = Except.error Err.stepFailed) :
    ∃ bd cfg, env.base_dirs = some bd ∧ env.config = Except.ok cfg ∧
      runPreCommands env (cfg.pre_commands.getD []) = Except.ok () := by
  cases hbd : env.base_dirs with
  | none => simp [run, hbd] at h
  | some bd =>
    cases hcfg : env.config with
    | error e => simp [run, hbd, hcfg] at h
    | ok cfg =>
      cases hpre : runPreCommands env (cfg.pre_commands.getD []) with
      | error e => simp [run, hbd, hcfg, hpre] at h
      | ok u =>
        cases u
        exact ⟨bd, cfg, rfl, rfl, hpre⟩

/-- A list of pre-run commands containing a failing one makes
`runPreCommands` return an error. -/
theorem runPreCommands_fails (env : Env) (cmds : List (String × String))
    (h : ∃ nc ∈ cmds, (env.run_custom_command nc.1 nc.2).toBool = false) :
    ∃ e, runPreCommands env cmds = Except.error e := by
  induction cmds with
  | nil => simp at h
  | cons c rest ih =>
    obtain ⟨n, cmd⟩ := c
    cases hc : env.run_custom_command n cmd with
    | error e => exact ⟨e, by simp [runPreCommands, hc]⟩
    | ok u =>
      rcases h with ⟨nc, hmem, hfl⟩
      rcases List.mem_cons.mp hmem with rfl | hmem2
      · rw [hc] at hfl
        simp [Except.toBool] at hfl
      · obtain ⟨e, he⟩ := ih ⟨nc, hmem2, hfl⟩
        exact ⟨e, by simp [runPreCommands, hc, he]⟩

/-- Inserting into a repository set with no duplicate roots keeps it
duplicate-free. -/
theorem insert_preserves_nodup (resolve : String → Option String)
    (rs : Repositories) (p : String) (h : rs.repos.Nodup) :
    (Repositories.insert resolve rs p).repos.Nodup := by
  unfold Repositories.insert
  cases resolve p with
  | none => exact h
  | some root =>
    by_cases hm : root ∈ rs.repos
    · simpa [hm]
    · simp [hm, List.nodup_append, h]

/-- Folding `insert` over any candidate list preserves freedom from
duplicate roots. -/
theorem foldl_insert_nodup (resolve : String → Option String) (ps : List String)
    (rs : Repositories) (h : rs.repos.Nodup) :
    ((ps.foldl (Repositories.insert resolve) rs).repos).Nodup := by
  induction ps generalizing rs with
  | nil => simpa using h
  | cons p ps ih => exact ih _ (insert_preserves_nodup resolve rs p h)

/-- A canonicalization map for the witness: both spellings of the user's
`.vim` directory (with and without trailing slash) resolve to the same
canonical root. -/
def resolveVim : String → Option String := fun p =>
  if p = "/home/u/.vim" ∨ p = "/home/u/.vim/" then some "/home/u/.vim" else none

/-! Claims. -/

/-- C3: for every sequence of insert calls, `repositories()` contains no
two entries with the same canonical root — aliases (relative spellings,
trailing slashes, symlinks) are identified by the canonicalization map,
so duplicates of any kind are stored once; and inserting a candidate
whose canonical root is already present is a no-op. -/
theorem claim_repository_set_dedup :
    (∀ (resolve : String → Option String) (ps : List String),
      ((ps.foldl (Repositories.insert resolve) Repositories.new).repositories).Nodup) ∧
    (∀ (resolve : String → Option String) (rs : Repositories) (p root : String),
      resolve p = some root → root ∈ rs.repositories →
        Repositories.insert resolve rs p = rs) := by
  constructor
  · intro resolve ps
    exact foldl_insert_nodup resolve ps Repositories.new (by simp [Repositories.new])
  · intro resolve rs p root hres hmem
    simp [Repositories.repositories] at hmem
    simp [Repositories.insert, hres, hmem]

/-- Witness for C3: the spec's trailing-slash scenario, plus the no-op
of re-inserting an alias of an already-stored root. -/
theorem claim_repository_set_dedup_witness :
    ((["/home/u/.vim", "/home/u/.vim/"].foldl (Repositories.insert resolveVim)
        Repositories.new).repositories).Nodup ∧
    Repositories.insert resolveVim ⟨["/home/u/.vim"]⟩ "/home/u/.vim/" =
      ⟨["/home/u/.vim"]⟩ :=
  ⟨claim_repository_set_dedup.1 resolveVim ["/home/u/.vim", "/home/u/.vim/"],
   claim_repository_set_dedup.2 resolveVim ⟨["/home/u/.vim"]⟩ "/home/u/.vim/"
     "/home/u/.vim" (by decide) (by decide)⟩

/-- C4: `push_result(None)` (a Skipped step) leaves the Report exactly as
it was, and a skipped step anywhere in a step sequence does not disturb
the processing of the subsequent steps. -/
theorem claim_push_result_none_noop :
    (∀ r : Report, r.push_result none = r) ∧
    (∀ (r : Report) (l1 l2 : List (Option (String × Bool))),
      (l1 ++ none :: l2).foldl Report.push_result r =
        (l1 ++ l2).foldl Report.push_result r) := by
  refine ⟨fun r => rfl, fun r l1 l2 => ?_⟩
  simp [List.foldl_append, List.foldl_cons, Report.push_result]

/-- C5: `push_result(Some((name, succeeded)))` appends exactly one record
at the end, unconditionally; pushing `(n, true)` then `(n, false)` yields
two distinct records for `n`, with no overwrite or merge. -/
theorem claim_push_result_some_appends :
    (∀ (r : Report) (n : String) (b : Bool),
      (r.push_result (some (n, b))).data = r.data ++ [(n, b)]) ∧
    (∀ (r : Report) (n : String),
      ((r.push_result (some (n, true))).push_result (some (n, false))).data =
        r.data ++ [(n, true), (n, false)]) := by
  refine ⟨fun r n b => rfl, fun r n => ?_⟩
  simp [Report.push_result]

/-- C1: for every run that reaches the final reduction, the exit status
is 0 iff every recorded entry succeeded (vacuously when the report is
empty), and no exit code other than 0 or 1 is possible. -/
theorem claim_exit_status_iff_all_succeeded (env : Env) (ns : Bool)
    (h : (run env ns).2 = Except.ok () ∨ (run env ns).2 = Except.error Err.stepFailed) :
    ((mainFn env ns).1 = 0 ↔ (run env ns).1.report.all_succeeded = true) ∧
    ((mainFn env ns).1 = 0 ∨ (mainFn env ns).1 = 1) := by
  obtain ⟨bd, cfg, hbd, hcfg, hpre⟩ := reaches_pre_ok env ns h
  have hs := run_shape_ok env ns bd cfg hbd hcfg hpre
  by_cases hall : ((mainSteps env ns bd cfg).filterMap id).all (fun p => p.2) = true
  · simp [mainFn, hs, hall, Report.all_succeeded]
  · simp [mainFn, hs, hall, Report.all_succeeded]

/-- Witness for C1: a run where every step is skipped reaches the
reduction, exits 0 and has a vacuously successful report. -/
theorem claim_exit_status_iff_all_succeeded_witness :
    ((mainFn env0 true).1 = 0 ↔ (run env0 true).1.report.all_succeeded = true) ∧
    ((mainFn env0 true).1 = 0 ∨ (mainFn env0 true).1 = 1) :=
  claim_exit_status_iff_all_succeeded env0 true (Or.inl rfl)

/-- C2: a failing pre-run custom command aborts the whole process with
exit status 1 before any step runs: the report stays empty, no summary
event is emitted, and the result is a fatal error (neither `Ok` nor the
`StepFailed` reduction). -/
theorem claim_pre_command_failure_aborts (env : Env) (ns : Bool)
    (bd : BaseDirs) (cfg : Config)
    (hbd : env.base_dirs = some bd) (hcfg : env.config = Except.ok cfg)
    (hfail : ∃ nc ∈ cfg.pre_commands.getD [],
      (env.run_custom_command nc.1 nc.2).toBool = false) :
    (run env ns).1.report.data = [] ∧
    (run env ns).1.events = [] ∧
    (run env ns).2 ≠ Except.ok () ∧
    (run env ns).2 ≠ Except.error Err.stepFailed ∧
    (mainFn env ns).1 = 1 := by
  obtain ⟨e, he⟩ := runPreCommands_fails env _ hfail
  have hr : run env ns = (⟨Report.new, []⟩, Except.error (Err.fatal e)) := by
    simp [run, hbd, hcfg, he]
  simp [mainFn, hr, Report.new]

/-- Witness for C2: an environment whose single pre-run command fails. -/
theorem claim_pre_command_failure_aborts_witness :
    (run envPre true).1.report.data = [] ∧
    (run envPre true).1.events = [] ∧
    (run envPre true).2 ≠ Except.ok () ∧
    (run envPre true).2 ≠ Except.error Err.stepFailed ∧
    (mainFn envPre true).1 = 1 :=
  claim_pre_command_failure_aborts envPre true ⟨"/home/u"⟩
    ⟨some [("boom", "exit 1")], none, none⟩ rfl rfl
    ⟨("boom", "exit 1"), by decide, rfl⟩

/-- C6: after the last step the summary is rendered iff the report is
non-empty — when non-empty, exactly one separator followed by one result
line per record in recorded order; when empty, no summary at all and the
process exits 0. -/
theorem claim_summary_iff_nonempty (env : Env) (ns : Bool)
    (h : (run env ns).2 = Except.ok () ∨ (run env ns).2 = Except.error Err.stepFailed) :
    ((run env ns).1.report.data = [] →
      (run env ns).1.events = [] ∧ (mainFn env ns).1 = 0) ∧
    ((run env ns).1.report.data ≠ [] →
      (run env ns).1.events =
        TermEvent.separator "Summary" ::
          (run env ns).1.report.data.map (fun p => TermEvent.result p.1 p.2)) := by
  obtain ⟨bd, cfg, hbd, hcfg, hpre⟩ := reaches_pre_ok env ns h
  have hs := run_shape_ok env ns bd cfg hbd hcfg hpre
  have hdata : (run env ns).1.report.data = (mainSteps env ns bd cfg).filterMap id := by
    rw [hs]
  have hev : (run env ns).1.events
      = summaryEvents ⟨(mainSteps env ns bd cfg).filterMap id⟩ := by
    rw [hs]
  constructor
  · intro hempty
    rw [hdata] at hempty
    refine ⟨?_, ?_⟩
    · rw [hev, hempty]
      rfl
    · simp [mainFn, hs, hempty]
  · intro hne
    rw [hdata] at hne
    cases hL : (mainSteps env ns bd cfg).filterMap id with
    | nil => exact absurd hL hne
    | cons a as =>
      rw [hev, hdata, hL]
      simp [summaryEvents]

/-- Witness for C6: the all-skipped run has an empty report, no summary
events, and exit code 0. -/
theorem claim_summary_iff_nonempty_witness :
    ((run env0 true).1.report.data = [] →
      (run env0 true).1.events = [] ∧ (mainFn env0 true).1 = 0) ∧
    ((run env0 true).1.report.data ≠ [] →
      (run env0 true).1.events =
        TermEvent.separator "Summary" ::
          (run env0 true).1.report.data.map (fun p => TermEvent.result p.1 p.2)) :=
  claim_summary_iff_nonempty env0 true (Or.inl rfl)

/-- C7: once the pre-run phase succeeds, the run never short-circuits on
an individual step failure — the report holds exactly the non-skipped
outcome of every step of the fixed sequence, in order, for arbitrary
step outcomes (failures included), and the run always reaches the final
reduction (`Ok` or `StepFailed`), never a mid-run fatal stop. -/
theorem claim_no_short_circuit (env : Env) (ns : Bool) (bd : BaseDirs) (cfg : Config)
    (hbd : env.base_dirs = some bd) (hcfg : env.config = Except.ok cfg)
    (hpre : runPreCommands env (cfg.pre_commands.getD []) = Except.ok ()) :
    (run env ns).1.report.data = (mainSteps env ns bd cfg).filterMap id ∧
    ((run env ns).2 = Except.ok () ∨ (run env ns).2 = Except.error Err.stepFailed) := by
  have hs := run_shape_ok env ns bd cfg hbd hcfg hpre
  refine ⟨by rw [hs], ?_⟩
  rw [hs]
  by_cases hall : ((mainSteps env ns bd cfg).filterMap id).all (fun p => p.2) = true
  · exact Or.inl (by simp [hall])
  · exact Or.inr (by simp [hall])

/-- Witness for C7: the environment with a failing homebrew step and a
failing custom command still records every non-skipped step and reaches
the final reduction. -/
theorem claim_no_short_circuit_witness :
    (run env1 false).1.report.data = (mainSteps env1 false ⟨"/home/u"⟩ cfg1).filterMap id ∧
    ((run env1 false).2 = Except.ok () ∨ (run env1 false).2 = Except.error Err.stepFailed) :=
  claim_no_short_circuit env1 false ⟨"/home/u"⟩ cfg1 rfl rfl rfl

/-- C8: every configured main custom command produces exactly one
recorded entry — the report is the non-skipped built-in outcomes before
them, then one `(name, is_ok)` record per configured command in order
(never skipped), then the non-skipped trailing built-ins. -/
theorem claim_custom_commands_recorded (env : Env) (ns : Bool) (bd : BaseDirs)
    (cfg : Config)
    (hbd : env.base_dirs = some bd) (hcfg : env.config = Except.ok cfg)
    (hpre : runPreCommands env (cfg.pre_commands.getD []) = Except.ok ()) :
    (run env ns).1.report.data =
      (stepsBefore env ns bd cfg).filterMap id ++
      (cfg.commands.getD []).map
        (fun nc => (nc.1, (env.run_custom_command nc.1 nc.2).toBool)) ++
      (stepsAfter env).filterMap id := by
  have hs := run_shape_ok env ns bd cfg hbd hcfg hpre
  rw [hs]
  show (mainSteps env ns bd cfg).filterMap id = _
  rw [mainSteps, List.filterMap_append, List.filterMap_append]
  rw [customSteps, List.filterMap_map]
  congr 1
  congr 1
  exact congrFun
    (List.filterMap_eq_map fun nc => (nc.1, (env.run_custom_command nc.1 nc.2).toBool))
    (cfg.commands.getD [])

/-- Witness for C8: in the sample environment the single configured
command `mycmd` yields exactly one failed record in place. -/
theorem claim_custom_commands_recorded_witness :
    (run env1 true).1.report.data =
      (stepsBefore env1 true ⟨"/home/u"⟩ cfg1).filterMap id ++
      (cfg1.commands.getD []).map
        (fun nc => (nc.1, (env1.run_custom_command nc.1 nc.2).toBool)) ++
      (stepsAfter env1).filterMap id :=
  claim_custom_commands_recorded env1 true ⟨"/home/u"⟩ cfg1 rfl rfl rfl

/-- C9: on Linux, `--no-system` suppresses exactly the distro system
upgrade step — the report of a flagged run is the report of the
unflagged run minus that one leading record, so every other step (brew,
flatpak, snap, fwupdmgr, needrestart, git pulls, custom commands) is
unaffected by the flag. -/
theorem claim_no_system_flag_frame (env : Env) (bd : BaseDirs) (cfg : Config)
    (hbd : env.base_dirs = some bd) (hcfg : env.config = Except.ok cfg)
    (hpre : runPreCommands env (cfg.pre_commands.getD []) = Except.ok ()) :
    (run env false).1.report.data =
      env.upgrade_linux.toList ++ (run env true).1.report.data := by
  have hsf := run_shape_ok env false bd cfg hbd hcfg hpre
  have hst := run_shape_ok env true bd cfg hbd hcfg hpre
  rw [hsf, hst]
  show (mainSteps env false bd cfg).filterMap id
      = env.upgrade_linux.toList ++ (mainSteps env true bd cfg).filterMap id
  rw [mainSteps, mainSteps, stepsBefore, stepsBefore]
  cases hul : env.upgrade_linux <;>
    simp [List.filterMap_append]

/-- Witness for C9: with the flag, the sample environment's report drops
exactly the leading system-upgrade record. -/
theorem claim_no_system_flag_frame_witness :
    (run env1 false).1.report.data =
      env1.upgrade_linux.toList ++ (run env1 true).1.report.data :=
  claim_no_system_flag_frame env1 ⟨"/home/u"⟩ cfg1 rfl rfl rfl

/-- C10: `main` prints an `ERROR: <message>` line iff `run`'s error is
not the `StepFailed` signal (recorded step failure exits 1 silently,
its summary being the only diagnostic), exits 0 exactly on `Ok`, and
never uses an exit code other than 0 or 1. -/
theorem claim_main_error_printing (env : Env) (ns : Bool) :
    ((mainFn env ns).1 = 0 ↔ (run env ns).2 = Except.ok ()) ∧
    ((mainFn env ns).1 = 0 ∨ (mainFn env ns).1 = 1) ∧
    (mainFn env ns).2 = specFatalPrints (run env ns).2 := by
  cases hr : (run env ns).2 with
  | ok u =>
    cases u
    simp [mainFn, specFatalPrints, hr]
  | error e =>
    cases e with
    | stepFailed => simp [mainFn, specFatalPrints, hr]
    | fatal msg => simp [mainFn, specFatalPrints, hr]

end Topgrade
